import Mathlib

/-!
Verification development for the Draghost bot-hosting platform.

Shallow embedding of the coin-economy core: the users, coin_transactions,
referrals and bots tables, the PostgreSQL triggers of the schema
(handle_referral_bonus after insert on users, handle_daily_coin_claim
after update on users), and the Express route handlers for registration,
login, email verification, the daily coin claim and bot deployment.
Randomness (referral-code suffix, verification token), the calendar date
and the outcome of the mail send are passed in as explicit parameters.
-/

namespace Draghost

/-- Transaction kinds, from the CHECK constraint on coin_transactions. -/
inductive TxType where
  | daily_claim
  | referral_bonus
  | bot_deployment
  | admin_grant
  | purchase
  deriving DecidableEq, Repr

/-- Bot status values, from the CHECK constraint on bots. -/
inductive BotStatus where
  | pending
  | deploying
  | deployed
  | failed
  | stopped
  deriving DecidableEq, Repr

/-- One row of coin_transactions: a LedgerEvent in the design vocabulary. -/
structure CoinTx where
  user_id : Nat
  amount : Int
  type : TxType
  description : String
  deriving DecidableEq, Repr

/-- One row of referrals. -/
structure Referral where
  referrer_id : Nat
  referred_id : Nat
  bonus_given : Bool
  deriving DecidableEq, Repr

/-- One row of bots, restricted to the fields the coin core manipulates. -/
structure Bot where
  user_id : Nat
  name : String
  repo_url : String
  status : BotStatus
  deriving DecidableEq, Repr

/-- One row of users. Calendar dates are modelled as day numbers. -/
structure User where
  uid : Nat
  username : String
  email : String
  password : String
  referral_code : String
  referrer_id : Option Nat
  verification_token : Option String
  is_verified : Bool
  is_admin : Bool
  coins : Int
  last_coin_claim : Option Nat
  deriving DecidableEq, Repr

/-- Database state: the tables the coin core touches, plus a counter
supplying fresh primary keys (the schema uses generated unique ids). -/
structure DB where
  users : List User
  coin_transactions : List CoinTx
  referrals : List Referral
  bots : List Bot
  nextId : Nat
  deriving DecidableEq, Repr

/-- The empty store, before any account is registered. -/
def init : DB :=
  { users := [], coin_transactions := [], referrals := [], bots := [], nextId := 0 }

/-- The external hashing primitive, modelled as an injective tagging of the
plaintext; login compares by recomputation, as bcrypt.compare does. -/
def hashPw (p : String) : String := "bcrypt" ++ p

/-- Body of the after-update trigger handle_daily_coin_claim for one updated
row: when last_coin_claim is set and changed, record a +10 daily_claim
event for that row. -/
def dailyClaimTriggerTxs (oldU newU : User) : List CoinTx :=
  if newU.last_coin_claim ≠ none ∧ oldU.last_coin_claim ≠ newU.last_coin_claim then
    [{ user_id := newU.uid, amount := 10, type := TxType.daily_claim,
       description := "Daily coin claim" }]
  else []

/-- Events produced by the after-update trigger across every row hit by one
UPDATE statement (the trigger is FOR EACH ROW). -/
def triggerTxs (p : User → Bool) (f : User → User) : List User → List CoinTx
  | [] => []
  | u :: l => (if p u then dailyClaimTriggerTxs u (f u) else []) ++ triggerTxs p f l

/-- An UPDATE on the users rows matching p, applying f to each, with the
after-update trigger appending its events. -/
def runUpdateUsers (db : DB) (p : User → Bool) (f : User → User) : DB :=
  { db with
    users := db.users.map (fun u => if p u then f u else u),
    coin_transactions := db.coin_transactions ++ triggerTxs p f db.users }

/-- The after-insert trigger handle_referral_bonus: when the inserted row has
a referrer it credits the referrer 100 coins, records the referral row,
records the referrer transaction, credits the new row 50 coins and records
the welcome transaction, in that order. -/
def handle_referral_bonus (db : DB) (newU : User) : DB :=
  match newU.referrer_id with
  | none => db
  | some rid =>
    let db1 := runUpdateUsers db (fun u => u.uid = rid)
      (fun u => { u with coins := u.coins + 100 })
    let db2 := { db1 with
      referrals := db1.referrals ++
        [{ referrer_id := rid, referred_id := newU.uid, bonus_given := true }],
      coin_transactions := db1.coin_transactions ++
        [{ user_id := rid, amount := 100, type := TxType.referral_bonus,
           description := "Referral bonus for new user: " ++ newU.username }] }
    let db3 := runUpdateUsers db2 (fun u => u.uid = newU.uid)
      (fun u => { u with coins := u.coins + 50 })
    { db3 with coin_transactions := db3.coin_transactions ++
        [{ user_id := newU.uid, amount := 50, type := TxType.referral_bonus,
           description := "Welcome bonus from referral" }] }

/-- Resolution of a supplied referral code to the referrer id: the first
users row whose referral_code matches, silently none otherwise. -/
def resolveReferrer (db : DB) (referralCode : Option String) : Option Nat :=
  match referralCode with
  | none => none
  | some rc => (db.users.find? (fun u => u.referral_code = rc)).map (fun u => u.uid)

/-- The row inserted by the registration INSERT statement: initial coins are
50 when a referrer was resolved and 0 otherwise. -/
def regRow (db : DB) (username email password : String) (rid : Option Nat)
    (suffix vtok : String) : User :=
  { uid := db.nextId, username := username, email := email,
    password := hashPw password, referral_code := username ++ suffix,
    referrer_id := rid, verification_token := some vtok,
    is_verified := false, is_admin := false,
    coins := if rid.isSome then 50 else 0, last_coin_claim := none }

/-- The route handler UPDATE that credits the referrer another 100 coins
after the insert (the trigger has already credited the same 100). -/
def serverReferrerCredit (db : DB) (rid : Option Nat) : DB :=
  match rid with
  | none => db
  | some r => runUpdateUsers db (fun u => u.uid = r)
      (fun u => { u with coins := u.coins + 100 })

inductive RegError where
  | userAlreadyExists
  | registrationFailed
  deriving DecidableEq, Repr

/-- A signed session token, as issued by jwt.sign on the user claims. -/
structure Jwt where
  userId : Nat
  email : String
  deriving DecidableEq, Repr

/-- The success payload of registration: the session token and the user
object of the response (coins as returned by the INSERT, before the
after-insert trigger). -/
structure RegOk where
  token : Jwt
  id : Nat
  username : String
  email : String
  coins : Int
  deriving DecidableEq, Repr

/-- POST /api/register. The duplicate check precedes everything; the insert
fires the referral trigger; the handler then credits the referrer again; the
verification-mail send is awaited inside the try block, so when it fails the
catch returns the registration-failed response while every insert persists. -/
def register (db : DB) (username email password : String)
    (referralCode : Option String) (suffix vtok : String) (mailOk : Bool) :
    Except RegError RegOk × DB :=
  if db.users.any (fun u => u.email = email ∨ u.username = username) then
    (.error .userAlreadyExists, db)
  else
    let rid := resolveReferrer db referralCode
    let newU := regRow db username email password rid suffix vtok
    let dbA := { db with users := db.users ++ [newU], nextId := db.nextId + 1 }
    let dbB := handle_referral_bonus dbA newU
    let dbC := serverReferrerCredit dbB rid
    if mailOk then
      (.ok { token := { userId := newU.uid, email := email }, id := newU.uid,
             username := username, email := email, coins := newU.coins }, dbC)
    else
      (.error .registrationFailed, dbC)

inductive LoginError where
  | invalidCredentials
  | notVerified
  deriving DecidableEq, Repr

/-- POST /api/login: an unknown email is rejected as invalid credentials; an
unverified account is rejected before the password comparison runs. -/
def login (db : DB) (email password : String) : Except LoginError Jwt :=
  match db.users.find? (fun u => u.email = email) with
  | none => .error .invalidCredentials
  | some u =>
    if u.is_verified = false then .error .notVerified
    else if hashPw password = u.password then .ok { userId := u.uid, email := u.email }
    else .error .invalidCredentials

inductive VerifyError where
  | invalidToken
  deriving DecidableEq, Repr

/-- GET /api/verify-email: one UPDATE setting is_verified on every row whose
verification_token matches, with zero matched rows reported as the
invalid-token error. The token column itself is never cleared. -/
def verifyEmail (db : DB) (token : String) : Except VerifyError Unit × DB :=
  let matched := db.users.filter (fun u => u.verification_token = some token)
  let db1 := runUpdateUsers db (fun u => u.verification_token = some token)
    (fun u => { u with is_verified := true })
  if matched.isEmpty then (.error .invalidToken, db1) else (.ok (), db1)

inductive ClaimError where
  | alreadyClaimedToday
  | serverError
  deriving DecidableEq, Repr

/-- POST /api/claim-daily-coins: reads the stored last_coin_claim of the
account, rejects when it equals today, otherwise one UPDATE adds 10 coins
and stores today, and the new balance is read back. The update fires the
daily-claim trigger, which records the +10 event. -/
def claimDaily (db : DB) (uid today : Nat) : Except ClaimError Int × DB :=
  match db.users.find? (fun u => u.uid = uid) with
  | none => (.error .serverError, db)
  | some u =>
    if u.last_coin_claim = some today then (.error .alreadyClaimedToday, db)
    else
      let db1 := runUpdateUsers db (fun v => v.uid = uid)
        (fun v => { v with coins := v.coins + 10, last_coin_claim := some today })
      match db1.users.find? (fun v => v.uid = uid) with
      | none => (.error .serverError, db1)
      | some v => (.ok v.coins, db1)

inductive DeployError where
  | insufficientCoins
  | serverError
  deriving DecidableEq, Repr

/-- POST /api/bots: reads the balance, rejects below 50 with no mutation,
otherwise one UPDATE subtracts 50 coins (last_coin_claim unchanged, so the
trigger records nothing) and one bot row is inserted with status pending.
No coin_transactions row is written on this path. -/
def requestDeployment (db : DB) (uid : Nat) (botName repoUrl : String) :
    Except DeployError Bot × DB :=
  match db.users.find? (fun u => u.uid = uid) with
  | none => (.error .serverError, db)
  | some u =>
    if u.coins < 50 then (.error .insufficientCoins, db)
    else
      let db1 := runUpdateUsers db (fun v => v.uid = uid)
        (fun v => { v with coins := v.coins - 50 })
      let bot : Bot := { user_id := uid, name := botName, repo_url := repoUrl,
                         status := BotStatus.pending }
      (.ok bot, { db1 with bots := db1.bots ++ [bot] })

/-- One inbound state-changing operation of the core. -/
inductive Op where
  | register (username email password : String) (referralCode : Option String)
      (suffix vtok : String) (mailOk : Bool)
  | claimDaily (uid today : Nat)
  | requestDeployment (uid : Nat) (botName repoUrl : String)
  | verifyEmail (token : String)
  deriving DecidableEq, Repr

/-- State transition of one operation (response discarded). -/
def step (db : DB) : Op → DB
  | .register un em pw rc sf vt mo => (register db un em pw rc sf vt mo).2
  | .claimDaily uid d => (claimDaily db uid d).2
  | .requestDeployment uid n r => (requestDeployment db uid n r).2
  | .verifyEmail t => (verifyEmail db t).2

/-- State after a sequence of operations. -/
def run (db : DB) (ops : List Op) : DB := ops.foldl step db

/-- Sum of the ledger amounts recorded for one account in a transaction list. -/
def txSum (l : List CoinTx) (i : Nat) : Int :=
  ((l.filter (fun t => t.user_id = i)).map (fun t => t.amount)).sum

/-- Sum of the ledger amounts recorded for one account. -/
def ledgerSum (db : DB) (i : Nat) : Int := txSum db.coin_transactions i

/-- Number of referral rows naming an account as the referrer. -/
def refCount (l : List Referral) (i : Nat) : Nat :=
  (l.filter (fun r => r.referrer_id = i)).length

/-- Number of bot rows owned by an account. -/
def botCount (l : List Bot) (i : Nat) : Nat :=
  (l.filter (fun b => b.user_id = i)).length

/-- The exact relation between the stored balance and the ledger that the
code maintains: the balance exceeds the ledger sum by 50 for an account
registered through a referral, by a further 100 for each account it
referred, and falls 50 below it for each bot it deployed. -/
def accountInv (db : DB) (u : User) : Prop :=
  u.coins + 50 * (botCount db.bots u.uid : Int) =
    ledgerSum db u.uid + (if u.referrer_id.isSome then (50 : Int) else 0) +
      100 * (refCount db.referrals u.uid : Int)

instance (db : DB) (u : User) : Decidable (accountInv db u) :=
  inferInstanceAs (Decidable (_ = _))

instance {ε α : Type} [DecidableEq ε] [DecidableEq α] : DecidableEq (Except ε α) :=
  fun a b =>
    match a, b with
    | .error e1, .error e2 => decidable_of_iff (e1 = e2) (by simp)
    | .error _, .ok _ => isFalse (by simp)
    | .ok _, .error _ => isFalse (by simp)
    | .ok a1, .ok a2 => decidable_of_iff (a1 = a2) (by simp)

/-! Field equations for runUpdateUsers. -/

@[simp] theorem runUpdateUsers_users (db : DB) (p : User → Bool) (f : User → User) :
    (runUpdateUsers db p f).users = db.users.map (fun u => if p u then f u else u) := rfl

@[simp] theorem runUpdateUsers_txs (db : DB) (p : User → Bool) (f : User → User) :
    (runUpdateUsers db p f).coin_transactions
      = db.coin_transactions ++ triggerTxs p f db.users := rfl

@[simp] theorem runUpdateUsers_referrals (db : DB) (p : User → Bool) (f : User → User) :
    (runUpdateUsers db p f).referrals = db.referrals := rfl

@[simp] theorem runUpdateUsers_bots (db : DB) (p : User → Bool) (f : User → User) :
    (runUpdateUsers db p f).bots = db.bots := rfl

@[simp] theorem runUpdateUsers_nextId (db : DB) (p : User → Bool) (f : User → User) :
    (runUpdateUsers db p f).nextId = db.nextId := rfl

/-! Lemmas about the trigger event lists. -/

@[simp] theorem triggerTxs_nil (p : User → Bool) (f : User → User) :
    triggerTxs p f [] = [] := rfl

theorem triggerTxs_cons (p : User → Bool) (f : User → User) (u : User) (l : List User) :
    triggerTxs p f (u :: l)
      = (if p u then dailyClaimTriggerTxs u (f u) else []) ++ triggerTxs p f l := rfl

theorem dailyClaimTriggerTxs_eq_nil (oldU newU : User)
    (h : newU.last_coin_claim = oldU.last_coin_claim) :
    dailyClaimTriggerTxs oldU newU = [] := by
  simp [dailyClaimTriggerTxs, h]

theorem triggerTxs_eq_nil_of_last (p : User → Bool) (f : User → User)
    (hf : ∀ u, (f u).last_coin_claim = u.last_coin_claim) :
    ∀ l, triggerTxs p f l = []
  | [] => rfl
  | u :: l => by
    rw [triggerTxs_cons, triggerTxs_eq_nil_of_last p f hf l]
    by_cases hp : p u
    · simp [hp, dailyClaimTriggerTxs_eq_nil u (f u) (hf u)]
    · simp [hp]

theorem triggerTxs_eq_nil_of_none (p : User → Bool) (f : User → User) (l : List User)
    (h : ∀ u ∈ l, p u = false) : triggerTxs p f l = [] := by
  induction l with
  | nil => rfl
  | cons a t ih =>
    rw [triggerTxs_cons, h a (by simp), ih (fun u hu => h u (by simp [hu]))]
    simp

/-! Lemmas about sums and counts. -/

@[simp] theorem txSum_nil (i : Nat) : txSum [] i = 0 := rfl

theorem txSum_append (l1 l2 : List CoinTx) (i : Nat) :
    txSum (l1 ++ l2) i = txSum l1 i + txSum l2 i := by
  simp [txSum, List.filter_append]

theorem txSum_singleton (t : CoinTx) (i : Nat) :
    txSum [t] i = if t.user_id = i then t.amount else 0 := by
  by_cases h : t.user_id = i <;> simp [txSum, h]

theorem txSum_cons (t : CoinTx) (l : List CoinTx) (i : Nat) :
    txSum (t :: l) i = (if t.user_id = i then t.amount else 0) + txSum l i := by
  by_cases h : t.user_id = i <;> simp [txSum, h, List.filter_cons]

theorem txSum_eq_zero (l : List CoinTx) (i : Nat) (h : ∀ t ∈ l, t.user_id ≠ i) :
    txSum l i = 0 := by
  have : l.filter (fun t => t.user_id = i) = [] := by
    rw [List.filter_eq_nil_iff]
    intro t ht
    simp [h t ht]
  simp [txSum, this]

@[simp] theorem refCount_nil (i : Nat) : refCount [] i = 0 := rfl

theorem refCount_append (l1 l2 : List Referral) (i : Nat) :
    refCount (l1 ++ l2) i = refCount l1 i + refCount l2 i := by
  simp [refCount, List.filter_append]

theorem refCount_singleton (r : Referral) (i : Nat) :
    refCount [r] i = if r.referrer_id = i then 1 else 0 := by
  by_cases h : r.referrer_id = i <;> simp [refCount, h]

theorem refCount_eq_zero (l : List Referral) (i : Nat) (h : ∀ r ∈ l, r.referrer_id ≠ i) :
    refCount l i = 0 := by
  have : l.filter (fun r => r.referrer_id = i) = [] := by
    rw [List.filter_eq_nil_iff]
    intro r hr
    simp [h r hr]
  simp [refCount, this]

@[simp] theorem botCount_nil (i : Nat) : botCount [] i = 0 := rfl

theorem botCount_append (l1 l2 : List Bot) (i : Nat) :
    botCount (l1 ++ l2) i = botCount l1 i + botCount l2 i := by
  simp [botCount, List.filter_append]

theorem botCount_singleton (b : Bot) (i : Nat) :
    botCount [b] i = if b.user_id = i then 1 else 0 := by
  by_cases h : b.user_id = i <;> simp [botCount, h]

theorem botCount_eq_zero (l : List Bot) (i : Nat) (h : ∀ b ∈ l, b.user_id ≠ i) :
    botCount l i = 0 := by
  have : l.filter (fun b => b.user_id = i) = [] := by
    rw [List.filter_eq_nil_iff]
    intro b hb
    simp [h b hb]
  simp [botCount, this]

/-! find? over a mapped user list, when the map preserves the search key. -/

theorem find?_map_users (l : List User) (g : User → User) (q : User → Bool)
    (hq : ∀ u, q (g u) = q u) :
    (l.map g).find? q = (l.find? q).map g := by
  induction l with
  | nil => rfl
  | cons a t ih =>
    by_cases ha : q a = true
    · rw [List.map_cons, List.find?_cons_of_pos _ ((hq a).trans ha),
        List.find?_cons_of_pos _ ha, Option.map_some']
    · rw [List.map_cons, List.find?_cons_of_neg _ (by rw [hq a]; simpa using ha),
        List.find?_cons_of_neg _ (by simpa using ha), ih]

theorem uid_of_find (l : List User) (i : Nat) (a : User)
    (h : l.find? (fun u => u.uid = i) = some a) : a.uid = i := by
  simpa using List.find?_some h

theorem mem_of_find (l : List User) (p : User → Bool) (a : User)
    (h : l.find? p = some a) : a ∈ l :=
  List.mem_of_find?_eq_some h

theorem triggerTxs_of_find (l : List User) (i : Nat) (f : User → User) (a : User)
    (hnd : (l.map (fun u => u.uid)).Nodup)
    (hfind : l.find? (fun u => u.uid = i) = some a) :
    triggerTxs (fun u => u.uid = i) f l = dailyClaimTriggerTxs a (f a) := by
  induction l with
  | nil => simp at hfind
  | cons b t ih =>
    rw [List.map_cons, List.nodup_cons] at hnd
    by_cases hb : b.uid = i
    · rw [List.find?_cons_of_pos _ (by simpa using hb)] at hfind
      obtain rfl : b = a := by simpa using hfind
      have hnone : ∀ u ∈ t, (fun u => decide (u.uid = i)) u = false := by
        intro u hu
        simp only [decide_eq_false_iff_not]
        intro hui
        have hmem : u.uid ∈ t.map (fun v => v.uid) := List.mem_map_of_mem _ hu
        rw [hui, ← hb] at hmem
        exact hnd.1 hmem
      rw [triggerTxs_cons, triggerTxs_eq_nil_of_none _ _ _ hnone]
      simp [hb]
    · rw [List.find?_cons_of_neg _ (by simpa using hb)] at hfind
      rw [triggerTxs_cons, ih hnd.2 hfind]
      simp [hb]

theorem map_uid_update (l : List User) (p : User → Bool) (f : User → User)
    (hf : ∀ u, (f u).uid = u.uid) :
    (l.map (fun u => if p u then f u else u)).map (fun u => u.uid)
      = l.map (fun u => u.uid) := by
  rw [List.map_map]
  refine List.map_congr_left ?_
  intro u _
  by_cases hp : p u <;> simp [hp, hf u]

@[simp] theorem triggerTxs_coins_add (p : User → Bool) (d : Int) (l : List User) :
    triggerTxs p (fun u => { u with coins := u.coins + d }) l = [] :=
  triggerTxs_eq_nil_of_last p (fun u => { u with coins := u.coins + d }) (fun _ => rfl) l

@[simp] theorem triggerTxs_coins_sub (p : User → Bool) (d : Int) (l : List User) :
    triggerTxs p (fun u => { u with coins := u.coins - d }) l = [] :=
  triggerTxs_eq_nil_of_last p (fun u => { u with coins := u.coins - d }) (fun _ => rfl) l

@[simp] theorem triggerTxs_set_verified (p : User → Bool) (l : List User) :
    triggerTxs p (fun u => { u with is_verified := true }) l = [] :=
  triggerTxs_eq_nil_of_last p (fun u => { u with is_verified := true }) (fun _ => rfl) l

/-! Shape lemmas for the claim-daily handler. -/

theorem claimDaily_missing (db : DB) (uid today : Nat)
    (hfind : db.users.find? (fun u => u.uid = uid) = none) :
    claimDaily db uid today = (.error .serverError, db) := by
  unfold claimDaily
  rw [hfind]

theorem claimDaily_already (db : DB) (uid today : Nat) (a : User)
    (hfind : db.users.find? (fun u => u.uid = uid) = some a)
    (hlast : a.last_coin_claim = some today) :
    claimDaily db uid today = (.error .alreadyClaimedToday, db) := by
  unfold claimDaily
  rw [hfind]
  simp [hlast]

theorem claimDaily_success (db : DB) (uid today : Nat) (a : User)
    (hfind : db.users.find? (fun u => u.uid = uid) = some a)
    (hlast : ¬ a.last_coin_claim = some today) :
    claimDaily db uid today =
      (.ok (a.coins + 10),
       { db with
         users := db.users.map (fun v =>
           if v.uid = uid then
             { v with coins := v.coins + 10, last_coin_claim := some today } else v),
         coin_transactions := db.coin_transactions ++
           triggerTxs (fun v => v.uid = uid)
             (fun v => { v with coins := v.coins + 10, last_coin_claim := some today })
             db.users }) := by
  have ha : a.uid = uid := uid_of_find _ _ _ hfind
  unfold claimDaily
  rw [hfind]
  simp only [hlast, if_false, runUpdateUsers]
  rw [find?_map_users _ _ _ (fun u => by by_cases hu : u.uid = uid <;> simp [hu]), hfind]
  simp [ha]

/-! Shape lemmas for the deployment handler. -/

theorem requestDeployment_missing (db : DB) (uid : Nat) (n r : String)
    (hfind : db.users.find? (fun u => u.uid = uid) = none) :
    requestDeployment db uid n r = (.error .serverError, db) := by
  unfold requestDeployment
  rw [hfind]

theorem requestDeployment_poor (db : DB) (uid : Nat) (n r : String) (a : User)
    (hfind : db.users.find? (fun u => u.uid = uid) = some a)
    (hcoins : a.coins < 50) :
    requestDeployment db uid n r = (.error .insufficientCoins, db) := by
  unfold requestDeployment
  rw [hfind]
  simp [hcoins]

theorem requestDeployment_success (db : DB) (uid : Nat) (n r : String) (a : User)
    (hfind : db.users.find? (fun u => u.uid = uid) = some a)
    (hcoins : ¬ a.coins < 50) :
    requestDeployment db uid n r =
      (.ok { user_id := uid, name := n, repo_url := r, status := BotStatus.pending },
       { db with
         users := db.users.map (fun v =>
           if v.uid = uid then { v with coins := v.coins - 50 } else v),
         bots := db.bots ++
           [{ user_id := uid, name := n, repo_url := r, status := BotStatus.pending }] }) := by
  unfold requestDeployment
  rw [hfind]
  simp [hcoins, runUpdateUsers]

/-! Shape lemmas for the verify-email handler. -/

theorem verifyEmail_invalid (db : DB) (tok : String)
    (h : db.users.filter (fun u => u.verification_token = some tok) = []) :
    verifyEmail db tok = (.error .invalidToken,
      { db with users := db.users.map (fun u =>
          if u.verification_token = some tok then { u with is_verified := true } else u) }) := by
  unfold verifyEmail
  simp [h, runUpdateUsers]

theorem verifyEmail_valid (db : DB) (tok : String)
    (h : ¬ db.users.filter (fun u => u.verification_token = some tok) = []) :
    verifyEmail db tok = (.ok (),
      { db with users := db.users.map (fun u =>
          if u.verification_token = some tok then { u with is_verified := true } else u) }) := by
  unfold verifyEmail
  simp only [List.isEmpty_iff]
  simp [h, runUpdateUsers]

/-! Shape lemmas for the registration handler. -/

theorem register_dup (db : DB) (un em pw : String) (rc : Option String)
    (sf vt : String) (mo : Bool)
    (hany : db.users.any (fun u => u.email = em ∨ u.username = un) = true) :
    register db un em pw rc sf vt mo = (.error .userAlreadyExists, db) := by
  unfold register
  rw [hany]
  simp

theorem register_snd_mail (db : DB) (un em pw : String) (rc : Option String)
    (sf vt : String) (mo : Bool) :
    (register db un em pw rc sf vt mo).2 = (register db un em pw rc sf vt true).2 := by
  unfold register
  cases mo <;> split <;> simp

theorem register_noref (db : DB) (un em pw : String) (rc : Option String)
    (sf vt : String) (mo : Bool)
    (hany : db.users.any (fun u => u.email = em ∨ u.username = un) = false)
    (hrid : resolveReferrer db rc = none) :
    register db un em pw rc sf vt mo =
      ((if mo then Except.ok
          { token := { userId := db.nextId, email := em }, id := db.nextId,
            username := un, email := em, coins := 0 }
        else Except.error RegError.registrationFailed),
       { db with users := db.users ++ [regRow db un em pw none sf vt],
                 nextId := db.nextId + 1 }) := by
  unfold register
  rw [hany, hrid]
  cases mo <;>
    simp [handle_referral_bonus, serverReferrerCredit, regRow]

theorem register_ref (db : DB) (un em pw : String) (rc : Option String)
    (sf vt : String) (mo : Bool) (r : Nat)
    (hany : db.users.any (fun u => u.email = em ∨ u.username = un) = false)
    (hrid : resolveReferrer db rc = some r) :
    register db un em pw rc sf vt mo =
      ((if mo then Except.ok
          { token := { userId := db.nextId, email := em }, id := db.nextId,
            username := un, email := em, coins := 50 }
        else Except.error RegError.registrationFailed),
       { users := (((db.users ++ [regRow db un em pw (some r) sf vt]).map
             (fun u => if u.uid = r then { u with coins := u.coins + 100 } else u)).map
             (fun u => if u.uid = db.nextId then { u with coins := u.coins + 50 } else u)).map
             (fun u => if u.uid = r then { u with coins := u.coins + 100 } else u),
         coin_transactions := db.coin_transactions ++
           [{ user_id := r, amount := 100, type := TxType.referral_bonus,
              description := "Referral bonus for new user: " ++ un },
            { user_id := db.nextId, amount := 50, type := TxType.referral_bonus,
              description := "Welcome bonus from referral" }],
         referrals := db.referrals ++
           [{ referrer_id := r, referred_id := db.nextId, bonus_given := true }],
         bots := db.bots,
         nextId := db.nextId + 1 }) := by
  unfold register
  rw [hany, hrid]
  cases mo <;>
    simp [handle_referral_bonus, serverReferrerCredit, regRow, runUpdateUsers,
      List.append_assoc]

theorem map_uid_of_preserve (l : List User) (g : User → User)
    (hg : ∀ u, (g u).uid = u.uid) :
    (l.map g).map (fun u => u.uid) = l.map (fun u => u.uid) := by
  rw [List.map_map]
  exact List.map_congr_left (fun u _ => hg u)

/-! The inductive invariant carried through every operation: generated keys
bound every stored id, stored primary keys are distinct, and every account
satisfies the balance-versus-ledger relation accountInv. -/

structure Inv (db : DB) : Prop where
  users_lt : ∀ u ∈ db.users, u.uid < db.nextId
  uids_nodup : (db.users.map (fun u => u.uid)).Nodup
  txs_lt : ∀ t ∈ db.coin_transactions, t.user_id < db.nextId
  refs_lt : ∀ r ∈ db.referrals, r.referrer_id < db.nextId ∧ r.referred_id < db.nextId
  bots_lt : ∀ b ∈ db.bots, b.user_id < db.nextId
  acct : ∀ u ∈ db.users, accountInv db u

theorem inv_init : Inv init := by
  constructor <;> simp [init]

theorem inv_verifyEmail (db : DB) (tok : String) (h : Inv db) :
    Inv (verifyEmail db tok).2 := by
  have hdb2 : (verifyEmail db tok).2
      = { db with users := db.users.map (fun u =>
            if u.verification_token = some tok then { u with is_verified := true } else u) } := by
    by_cases hf : db.users.filter (fun u => u.verification_token = some tok) = []
    · rw [verifyEmail_invalid db tok hf]
    · rw [verifyEmail_valid db tok hf]
  rw [hdb2]
  have hguid : ∀ u : User, ((fun u => if u.verification_token = some tok
      then { u with is_verified := true } else u) u).uid = u.uid := by
    intro u
    by_cases hp : u.verification_token = some tok <;> simp [hp]
  constructor
  · intro u hu
    simp only [List.mem_map] at hu
    obtain ⟨v, hv, rfl⟩ := hu
    by_cases hp : v.verification_token = some tok <;> simp [hp] <;> exact h.users_lt v hv
  · simpa [map_uid_of_preserve _ _ hguid] using h.uids_nodup
  · exact h.txs_lt
  · exact h.refs_lt
  · exact h.bots_lt
  · intro u hu
    simp only [List.mem_map] at hu
    obtain ⟨v, hv, rfl⟩ := hu
    have hv' := h.acct v hv
    unfold accountInv ledgerSum at hv' ⊢
    by_cases hp : v.verification_token = some tok <;> simp [hp] <;> exact hv'

theorem inv_requestDeployment (db : DB) (uid : Nat) (n r : String) (h : Inv db) :
    Inv (requestDeployment db uid n r).2 := by
  cases hfind : db.users.find? (fun u => u.uid = uid) with
  | none => rw [requestDeployment_missing db uid n r hfind]; exact h
  | some a =>
    by_cases hc : a.coins < 50
    · rw [requestDeployment_poor db uid n r a hfind hc]; exact h
    · have ha : a.uid = uid := uid_of_find _ _ _ hfind
      have halt : uid < db.nextId := ha ▸ h.users_lt a (mem_of_find _ _ _ hfind)
      rw [requestDeployment_success db uid n r a hfind hc]
      have hguid : ∀ u : User, ((fun v => if v.uid = uid
          then { v with coins := v.coins - 50 } else v) u).uid = u.uid := by
        intro u
        by_cases hp : u.uid = uid <;> simp [hp]
      constructor
      · intro u hu
        simp only [List.mem_map] at hu
        obtain ⟨v, hv, rfl⟩ := hu
        by_cases hp : v.uid = uid
        · simp only [hp, if_pos rfl]
          simpa using halt
        · simp only [hp, if_neg hp]
          exact h.users_lt v hv
      · simpa [map_uid_of_preserve _ _ hguid] using h.uids_nodup
      · exact h.txs_lt
      · exact h.refs_lt
      · intro b hb
        simp only [List.mem_append, List.mem_singleton] at hb
        rcases hb with hb | rfl
        · exact h.bots_lt b hb
        · exact halt
      · intro u hu
        simp only [List.mem_map] at hu
        obtain ⟨v, hv, rfl⟩ := hu
        have hv' := h.acct v hv
        unfold accountInv ledgerSum at hv' ⊢
        simp only [botCount_append, botCount_singleton]
        by_cases hp : v.uid = uid
        · simp [hp] at hv' ⊢
          split_ifs at hv' ⊢ <;> omega
        · simp only [if_neg hp, if_neg (show ¬ uid = v.uid from fun hh => hp hh.symm)]
          simpa using hv'

theorem inv_claimDaily (db : DB) (uid today : Nat) (h : Inv db) :
    Inv (claimDaily db uid today).2 := by
  cases hfind : db.users.find? (fun u => u.uid = uid) with
  | none => rw [claimDaily_missing db uid today hfind]; exact h
  | some a =>
    by_cases hl : a.last_coin_claim = some today
    · rw [claimDaily_already db uid today a hfind hl]; exact h
    · have ha : a.uid = uid := uid_of_find _ _ _ hfind
      have halt : uid < db.nextId := ha ▸ h.users_lt a (mem_of_find _ _ _ hfind)
      rw [claimDaily_success db uid today a hfind hl]
      have htr : triggerTxs (fun v => v.uid = uid)
          (fun v => { v with coins := v.coins + 10, last_coin_claim := some today })
          db.users
          = [{ user_id := a.uid, amount := 10, type := TxType.daily_claim,
               description := "Daily coin claim" }] := by
        rw [triggerTxs_of_find db.users uid _ a h.uids_nodup hfind]
        simp [dailyClaimTriggerTxs, hl]
      have hguid : ∀ u : User, ((fun v => if v.uid = uid
          then { v with coins := v.coins + 10, last_coin_claim := some today } else v) u).uid
          = u.uid := by
        intro u
        by_cases hp : u.uid = uid <;> simp [hp]
      constructor
      · intro u hu
        simp only [List.mem_map] at hu
        obtain ⟨v, hv, rfl⟩ := hu
        by_cases hp : v.uid = uid
        · simp only [hp, if_pos rfl]
          simpa using halt
        · simp only [hp, if_neg hp]
          exact h.users_lt v hv
      · simpa [map_uid_of_preserve _ _ hguid] using h.uids_nodup
      · intro t ht
        simp only [htr, List.mem_append, List.mem_singleton] at ht
        rcases ht with ht | rfl
        · exact h.txs_lt t ht
        · simpa [ha] using halt
      · exact h.refs_lt
      · exact h.bots_lt
      · intro u hu
        simp only [List.mem_map] at hu
        obtain ⟨v, hv, rfl⟩ := hu
        have hv' := h.acct v hv
        unfold accountInv ledgerSum at hv' ⊢
        simp only [htr, txSum_append, txSum_singleton]
        by_cases hp : v.uid = uid
        · simp [hp, ha] at hv' ⊢
          split_ifs at hv' ⊢ <;> omega
        · have hne : ¬ a.uid = v.uid := fun hh => hp (hh.symm.trans ha)
          simp [hp, hne] at hv' ⊢
          split_ifs at hv' ⊢ <;> omega

theorem resolveReferrer_lt (db : DB) (rc : Option String) (r : Nat)
    (hres : resolveReferrer db rc = some r)
    (hlt : ∀ u ∈ db.users, u.uid < db.nextId) : r < db.nextId := by
  cases rc with
  | none => simp [resolveReferrer] at hres
  | some c =>
    simp only [resolveReferrer, Option.map_eq_some'] at hres
    obtain ⟨b, hf, rfl⟩ := hres
    exact hlt b (mem_of_find _ _ _ hf)

theorem register_noref_snd (db : DB) (un em pw : String) (rc : Option String)
    (sf vt : String) (mo : Bool)
    (hany : db.users.any (fun u => u.email = em ∨ u.username = un) = false)
    (hrid : resolveReferrer db rc = none) :
    (register db un em pw rc sf vt mo).2 =
      { db with users := db.users ++ [regRow db un em pw none sf vt],
                nextId := db.nextId + 1 } := by
  rw [register_noref db un em pw rc sf vt mo hany hrid]

theorem register_ref_snd (db : DB) (un em pw : String) (rc : Option String)
    (sf vt : String) (mo : Bool) (r : Nat)
    (hany : db.users.any (fun u => u.email = em ∨ u.username = un) = false)
    (hrid : resolveReferrer db rc = some r) :
    (register db un em pw rc sf vt mo).2 =
      { users := (((db.users ++ [regRow db un em pw (some r) sf vt]).map
            (fun u => if u.uid = r then { u with coins := u.coins + 100 } else u)).map
            (fun u => if u.uid = db.nextId then { u with coins := u.coins + 50 } else u)).map
            (fun u => if u.uid = r then { u with coins := u.coins + 100 } else u),
        coin_transactions := db.coin_transactions ++
          [{ user_id := r, amount := 100, type := TxType.referral_bonus,
             description := "Referral bonus for new user: " ++ un },
           { user_id := db.nextId, amount := 50, type := TxType.referral_bonus,
             description := "Welcome bonus from referral" }],
        referrals := db.referrals ++
          [{ referrer_id := r, referred_id := db.nextId, bonus_given := true }],
        bots := db.bots,
        nextId := db.nextId + 1 } := by
  rw [register_ref db un em pw rc sf vt mo r hany hrid]

theorem inv_register (db : DB) (un em pw : String) (rc : Option String)
    (sf vt : String) (mo : Bool) (h : Inv db) :
    Inv (register db un em pw rc sf vt mo).2 := by
  by_cases hany : db.users.any (fun u => u.email = em ∨ u.username = un) = true
  · rw [register_dup db un em pw rc sf vt mo hany]
    exact h
  · have hany' : db.users.any (fun u => u.email = em ∨ u.username = un) = false :=
      Bool.not_eq_true _ ▸ hany
    cases hres : resolveReferrer db rc with
    | none =>
      rw [register_noref_snd db un em pw rc sf vt mo hany' hres]
      have htx0 : txSum db.coin_transactions db.nextId = 0 :=
        txSum_eq_zero _ _ (fun t ht => Nat.ne_of_lt (h.txs_lt t ht))
      have href0 : refCount db.referrals db.nextId = 0 :=
        refCount_eq_zero _ _ (fun rr hr => Nat.ne_of_lt (h.refs_lt rr hr).1)
      have hbot0 : botCount db.bots db.nextId = 0 :=
        botCount_eq_zero _ _ (fun b hb => Nat.ne_of_lt (h.bots_lt b hb))
      constructor
      · intro u hu
        simp only [List.mem_append, List.mem_singleton] at hu
        rcases hu with hu | rfl
        · exact Nat.lt_succ_of_lt (h.users_lt u hu)
        · simp [regRow]
      · simp only [List.map_append]
        rw [List.nodup_append]
        refine ⟨h.uids_nodup, by simp, ?_⟩
        intro x hx
        simp only [List.mem_map] at hx
        obtain ⟨v, hv, rfl⟩ := hx
        simp [regRow]
        exact Nat.ne_of_lt (h.users_lt v hv)
      · intro t ht
        exact Nat.lt_succ_of_lt (h.txs_lt t ht)
      · intro rr hr
        exact ⟨Nat.lt_succ_of_lt (h.refs_lt rr hr).1, Nat.lt_succ_of_lt (h.refs_lt rr hr).2⟩
      · intro b hb
        exact Nat.lt_succ_of_lt (h.bots_lt b hb)
      · intro u hu
        simp only [List.mem_append, List.mem_singleton] at hu
        rcases hu with hu | rfl
        · exact h.acct u hu
        · unfold accountInv ledgerSum
          simp [regRow, htx0, href0, hbot0]
    | some r =>
      rw [register_ref_snd db un em pw rc sf vt mo r hany' hres]
      have hrlt : r < db.nextId := resolveReferrer_lt db rc r hres h.users_lt
      have hrne : ¬ r = db.nextId := Nat.ne_of_lt hrlt
      have htx0 : txSum db.coin_transactions db.nextId = 0 :=
        txSum_eq_zero _ _ (fun t ht => Nat.ne_of_lt (h.txs_lt t ht))
      have href0 : refCount db.referrals db.nextId = 0 :=
        refCount_eq_zero _ _ (fun rr hr => Nat.ne_of_lt (h.refs_lt rr hr).1)
      have hbot0 : botCount db.bots db.nextId = 0 :=
        botCount_eq_zero _ _ (fun b hb => Nat.ne_of_lt (h.bots_lt b hb))
      have hcomp : ∀ v : User,
          ((fun u => if u.uid = r then { u with coins := u.coins + 100 } else u)
            ((fun u => if u.uid = db.nextId then { u with coins := u.coins + 50 } else u)
              ((fun u => if u.uid = r then { u with coins := u.coins + 100 } else u) v)))
          = (if v.uid = r then { v with coins := v.coins + 200 }
             else if v.uid = db.nextId then { v with coins := v.coins + 50 } else v) := by
        intro v
        by_cases hvr : v.uid = r
        · have : ¬ v.uid = db.nextId := by rw [hvr]; exact hrne
          simp [hvr, this, hrne, Ne.symm hrne]
          omega
        · by_cases hvn : v.uid = db.nextId
          · simp [hvr, hvn, hrne, Ne.symm hrne]
          · simp [hvr, hvn]
      have husers : (((db.users ++ [regRow db un em pw (some r) sf vt]).map
            (fun u => if u.uid = r then { u with coins := u.coins + 100 } else u)).map
            (fun u => if u.uid = db.nextId then { u with coins := u.coins + 50 } else u)).map
            (fun u => if u.uid = r then { u with coins := u.coins + 100 } else u)
          = (db.users ++ [regRow db un em pw (some r) sf vt]).map
            (fun v => if v.uid = r then { v with coins := v.coins + 200 }
              else if v.uid = db.nextId then { v with coins := v.coins + 50 } else v) := by
        rw [List.map_map, List.map_map]
        exact List.map_congr_left (fun v _ => hcomp v)
      have hgud : ∀ v : User,
          ((fun v => if v.uid = r then { v with coins := v.coins + 200 }
            else if v.uid = db.nextId then { v with coins := v.coins + 50 } else v) v).uid
          = v.uid := by
        intro v
        by_cases hvr : v.uid = r
        · simp [hvr]
        · by_cases hvn : v.uid = db.nextId <;> simp [hvr, hvn, Ne.symm hrne]
      constructor
      · intro u hu
        rw [husers] at hu
        simp only [List.mem_map] at hu
        obtain ⟨v, hv, rfl⟩ := hu
        rw [hgud v]
        simp only [List.mem_append, List.mem_singleton] at hv
        rcases hv with hv | rfl
        · exact Nat.lt_succ_of_lt (h.users_lt v hv)
        · simp [regRow]
      · rw [husers, map_uid_of_preserve _ _ hgud]
        simp only [List.map_append]
        rw [List.nodup_append]
        refine ⟨h.uids_nodup, by simp, ?_⟩
        intro x hx
        simp only [List.mem_map] at hx
        obtain ⟨v, hv, rfl⟩ := hx
        simp [regRow]
        exact Nat.ne_of_lt (h.users_lt v hv)
      · intro t ht
        simp only [List.mem_append, List.mem_cons, List.not_mem_nil, or_false] at ht
        rcases ht with ht | rfl | rfl
        · exact Nat.lt_succ_of_lt (h.txs_lt t ht)
        · exact Nat.lt_succ_of_lt hrlt
        · exact Nat.lt_succ_self _
      · intro rr hr
        simp only [List.mem_append, List.mem_singleton] at hr
        rcases hr with hr | rfl
        · exact ⟨Nat.lt_succ_of_lt (h.refs_lt rr hr).1, Nat.lt_succ_of_lt (h.refs_lt rr hr).2⟩
        · exact ⟨Nat.lt_succ_of_lt hrlt, Nat.lt_succ_self _⟩
      · intro b hb
        exact Nat.lt_succ_of_lt (h.bots_lt b hb)
      · intro u hu
        rw [husers] at hu
        simp only [List.mem_map] at hu
        obtain ⟨v, hv, rfl⟩ := hu
        simp only [List.mem_append, List.mem_singleton] at hv
        unfold accountInv ledgerSum
        simp only [txSum_append, txSum_cons, txSum_singleton, txSum_nil,
          refCount_append, refCount_singleton]
        rcases hv with hv | rfl
        · have hv' := h.acct v hv
          unfold accountInv ledgerSum at hv'
          have hvn : ¬ v.uid = db.nextId := Nat.ne_of_lt (h.users_lt v hv)
          by_cases hvr : v.uid = r
          · simp [hvr, hvn, hrne, Ne.symm hrne] at hv' ⊢
            split_ifs at hv' ⊢ <;> omega
          · simp [hvr, hvn, (fun hh : r = v.uid => hvr hh.symm),
              (fun hh : db.nextId = v.uid => hvn hh.symm)] at hv' ⊢
            split_ifs at hv' ⊢ <;> omega
        · simp [regRow, hrne, Ne.symm hrne, htx0, href0, hbot0, txSum_cons, txSum_singleton]

theorem inv_step (db : DB) (op : Op) (h : Inv db) : Inv (step db op) := by
  cases op with
  | register un em pw rc sf vt mo => exact inv_register db un em pw rc sf vt mo h
  | claimDaily uid d => exact inv_claimDaily db uid d h
  | requestDeployment uid n r => exact inv_requestDeployment db uid n r h
  | verifyEmail t => exact inv_verifyEmail db t h

theorem inv_run (db : DB) (ops : List Op) (h : Inv db) : Inv (run db ops) := by
  induction ops generalizing db with
  | nil => exact h
  | cons op t ih => exact ih (step db op) (inv_step db op h)

/-! find? helpers used by the claim theorems. -/

theorem find?_append_right (l1 l2 : List User) (p : User → Bool)
    (h : ∀ u ∈ l1, p u = false) : (l1 ++ l2).find? p = l2.find? p := by
  induction l1 with
  | nil => rfl
  | cons a t ih =>
    rw [List.cons_append,
      List.find?_cons_of_neg _ (by simp [h a (List.mem_cons_self a t)]),
      ih (fun u hu => h u (List.mem_cons_of_mem a hu))]

theorem eq_of_find_of_nodup (l : List User) (i : Nat) (a v : User)
    (hnd : (l.map (fun u => u.uid)).Nodup)
    (hfind : l.find? (fun u => u.uid = i) = some a)
    (hv : v ∈ l) (hvi : v.uid = i) : v = a := by
  induction l with
  | nil => simp at hv
  | cons b t ih =>
    rw [List.map_cons, List.nodup_cons] at hnd
    rcases List.mem_cons.1 hv with rfl | hv2
    · rw [List.find?_cons_of_pos _ (by simpa using hvi)] at hfind
      simpa using hfind
    · by_cases hb : b.uid = i
      · exfalso
        have hmem : v.uid ∈ t.map (fun u => u.uid) := List.mem_map_of_mem _ hv2
        rw [hvi, ← hb] at hmem
        exact hnd.1 hmem
      · rw [List.find?_cons_of_neg _ (by simpa using hb)] at hfind
        exact ih hnd.2 hfind hv2

/-! Concrete fixtures used by counterexamples and witnesses. -/

/-- Trace: register alice, then register bob with the referral code of alice. -/
def refTrace : List Op :=
  [Op.register "alice" "alice@x.com" "pw" none "1X" "tokA" true,
   Op.register "bob" "bob@x.com" "pw" (some "alice1X") "2Y" "tokB" true]

/-- A store holding one verified account with 50 coins. -/
def fixUser50 : User :=
  { uid := 0, username := "dora", email := "dora@x.com", password := hashPw "pw",
    referral_code := "dora1X", referrer_id := none, verification_token := some "t4",
    is_verified := true, is_admin := false, coins := 50, last_coin_claim := none }

def fixDb50 : DB :=
  { users := [fixUser50], coin_transactions := [], referrals := [], bots := [],
    nextId := 1 }

/-- A store holding one verified account with 40 coins. -/
def fixUser40 : User := { fixUser50 with coins := 40 }

def fixDb40 : DB :=
  { users := [fixUser40], coin_transactions := [], referrals := [], bots := [],
    nextId := 1 }

/-- A store holding one unverified account carrying verification token tokV. -/
def fixUserTok : User :=
  { uid := 0, username := "evan", email := "evan@x.com", password := hashPw "pw",
    referral_code := "evan1X", referrer_id := none, verification_token := some "tokV",
    is_verified := false, is_admin := false, coins := 0, last_coin_claim := none }

def fixDbTok : DB :=
  { users := [fixUserTok], coin_transactions := [], referrals := [], bots := [],
    nextId := 1 }

/-- Claim C1 (counterexample): the stated invariant - balance equals the sum
of the ledger events of the account - fails on the code: after registering
alice and then bob with the referral code of alice, bob holds 100 coins while
the ledger events of bob sum to 50 (and alice holds 200 against 100). -/
theorem C1_counterexample :
    ¬ ∀ u ∈ (run init refTrace).users,
        u.coins = ledgerSum (run init refTrace) u.uid := by
  decide

/-- Claim C1 (amended): in every state reachable from the empty store, every
account satisfies accountInv: its balance plus 50 per bot it deployed equals
its ledger sum, plus 50 if it registered through a referral, plus 100 for
each account it referred. Daily claims preserve ledger parity exactly; the
referral path and the deployment path account for the whole discrepancy. -/
theorem C1_balance_vs_ledger (ops : List Op) :
    ∀ u ∈ (run init ops).users, accountInv (run init ops) u :=
  fun u hu => (inv_run init ops inv_init).acct u hu

/-- Witness for C1 at a concrete one-registration trace. -/
theorem C1_balance_vs_ledger_witness :
    accountInv (run init [Op.register "alice" "alice@x.com" "pw" none "1X" "tokA" true])
      (regRow init "alice" "alice@x.com" "pw" none "1X" "tokA") :=
  C1_balance_vs_ledger [Op.register "alice" "alice@x.com" "pw" none "1X" "tokA" true]
    (regRow init "alice" "alice@x.com" "pw" none "1X" "tokA") (by decide)

/-- Claim C2 (code evaluated at the failing input): when bob registers with
the referral code of alice (who starts at 0 coins), exactly one referral row
links them, but bob ends with 100 coins instead of 50 and alice with 200
instead of 100: the route credits the referrer 100 and the after-insert
trigger credits another 100, while bob receives 50 at the insert plus 50
from the trigger. -/
theorem C2_referral_double_bonus :
    (run init refTrace).users.map (fun u => (u.username, u.coins))
      = [("alice", 200), ("bob", 100)] ∧
    (run init refTrace).referrals
      = [{ referrer_id := 0, referred_id := 1, bonus_given := true }] ∧
    (run init refTrace).coin_transactions.map (fun t => (t.user_id, t.amount))
      = [(0, 100), (1, 50)] := by
  decide

/-- Claim C3: claimDaily fails with AlreadyClaimedToday exactly when the
stored lastClaimDate equals today, and a failure leaves the store unchanged;
a fresh account with 0 coins and no claim date claims to balance 10 with
lastClaimDate set to today, a same-day retry fails with the store unchanged,
and a next-day retry yields balance 20. -/
theorem C3_claim_daily_spec (db : DB) (uid today : Nat) (a : User)
    (hfind : db.users.find? (fun u => u.uid = uid) = some a) :
    ((claimDaily db uid today).1 = .error .alreadyClaimedToday ↔
      a.last_coin_claim = some today) ∧
    (a.last_coin_claim = some today → (claimDaily db uid today).2 = db) ∧
    (a.coins = 0 → a.last_coin_claim = none →
      ∃ db1, claimDaily db uid today = (.ok 10, db1) ∧
        db1.users.find? (fun u => u.uid = uid)
          = some { a with coins := 10, last_coin_claim := some today } ∧
        (claimDaily db1 uid today).1 = .error .alreadyClaimedToday ∧
        (claimDaily db1 uid today).2 = db1 ∧
        (claimDaily db1 uid (today + 1)).1 = .ok 20) := by
  have ha : a.uid = uid := uid_of_find _ _ _ hfind
  refine ⟨⟨?_, ?_⟩, ?_, ?_⟩
  · intro he
    by_contra hl
    rw [claimDaily_success db uid today a hfind hl] at he
    exact absurd he (by simp)
  · intro hl
    rw [claimDaily_already db uid today a hfind hl]
  · intro hl
    rw [claimDaily_already db uid today a hfind hl]
  · intro hc0 hln
    have hl : ¬ a.last_coin_claim = some today := by simp [hln]
    have hsucc := claimDaily_success db uid today a hfind hl
    have hfind1 : (claimDaily db uid today).2.users.find? (fun u => u.uid = uid)
        = some { a with coins := 10, last_coin_claim := some today } := by
      rw [hsucc]
      show (db.users.map (fun v => if v.uid = uid then
          { v with coins := v.coins + 10, last_coin_claim := some today } else v)).find?
          (fun u => u.uid = uid) = _
      rw [find?_map_users _ _ _ (fun u => by by_cases hu : u.uid = uid <;> simp [hu]), hfind]
      simp [ha, hc0]
    refine ⟨(claimDaily db uid today).2, ?_, hfind1, ?_, ?_, ?_⟩
    · rw [hsucc, hc0]
      simp
    · rw [(claimDaily_already (claimDaily db uid today).2 uid today _ hfind1 (by simp))]
    · rw [(claimDaily_already (claimDaily db uid today).2 uid today _ hfind1 (by simp))]
    · rw [claimDaily_success (claimDaily db uid today).2 uid (today + 1) _ hfind1
        (by simp)]
      simp

/-- Witness for C3 at the concrete 40-coin store. -/
theorem C3_claim_daily_spec_witness :
    ((claimDaily fixDb40 0 7).1 = .error .alreadyClaimedToday ↔
      fixUser40.last_coin_claim = some 7) ∧
    (fixUser40.last_coin_claim = some 7 → (claimDaily fixDb40 0 7).2 = fixDb40) ∧
    (fixUser40.coins = 0 → fixUser40.last_coin_claim = none →
      ∃ db1, claimDaily fixDb40 0 7 = (.ok 10, db1) ∧
        db1.users.find? (fun u => u.uid = 0)
          = some { fixUser40 with coins := 10, last_coin_claim := some 7 } ∧
        (claimDaily db1 0 7).1 = .error .alreadyClaimedToday ∧
        (claimDaily db1 0 7).2 = db1 ∧
        (claimDaily db1 0 8).1 = .ok 20) :=
  C3_claim_daily_spec fixDb40 0 7 fixUser40 (by decide)

/-- Claim C4 (counterexample): an account with balance exactly 50 deploys
successfully, the balance reaches 0 and one pending Bot exists, but the
ledger stays empty: no LedgerEvent of any kind - in particular none of
amount -50 - is appended. -/
theorem C4_counterexample :
    (requestDeployment fixDb50 0 "mybot" "url").1
      = .ok { user_id := 0, name := "mybot", repo_url := "url",
              status := BotStatus.pending } ∧
    (requestDeployment fixDb50 0 "mybot" "url").2.users.map (fun u => u.coins) = [0] ∧
    (requestDeployment fixDb50 0 "mybot" "url").2.bots
      = [{ user_id := 0, name := "mybot", repo_url := "url",
           status := BotStatus.pending }] ∧
    (requestDeployment fixDb50 0 "mybot" "url").2.coin_transactions = [] := by
  decide

/-- Claim C4 (amended): for every account with balance exactly 50,
requestDeployment succeeds, the balance becomes 0, exactly one pending Bot
row is appended, and the coin_transactions table is unchanged: the
deployment debit is never recorded in the ledger. -/
theorem C4_deploy_no_ledger_event (db : DB) (uid : Nat) (n r : String) (a : User)
    (hfind : db.users.find? (fun u => u.uid = uid) = some a)
    (hc : a.coins = 50) :
    (requestDeployment db uid n r).1
      = .ok { user_id := uid, name := n, repo_url := r, status := BotStatus.pending } ∧
    (requestDeployment db uid n r).2.users.find? (fun u => u.uid = uid)
      = some { a with coins := 0 } ∧
    (requestDeployment db uid n r).2.bots
      = db.bots ++ [{ user_id := uid, name := n, repo_url := r,
                      status := BotStatus.pending }] ∧
    (requestDeployment db uid n r).2.coin_transactions = db.coin_transactions := by
  have ha : a.uid = uid := uid_of_find _ _ _ hfind
  have hge : ¬ a.coins < 50 := by omega
  have hs := requestDeployment_success db uid n r a hfind hge
  refine ⟨by rw [hs], ?_, by rw [hs], by rw [hs]⟩
  rw [hs]
  show (db.users.map (fun v => if v.uid = uid then
      { v with coins := v.coins - 50 } else v)).find? (fun u => u.uid = uid) = _
  rw [find?_map_users _ _ _ (fun u => by by_cases hu : u.uid = uid <;> simp [hu]), hfind]
  simp [ha, hc]

/-- Witness for the amended C4 at the concrete 50-coin store. -/
theorem C4_deploy_no_ledger_event_witness :
    (requestDeployment fixDb50 0 "b" "u").1
      = .ok { user_id := 0, name := "b", repo_url := "u",
              status := BotStatus.pending } ∧
    (requestDeployment fixDb50 0 "b" "u").2.users.find? (fun u => u.uid = 0)
      = some { fixUser50 with coins := 0 } ∧
    (requestDeployment fixDb50 0 "b" "u").2.bots
      = fixDb50.bots ++ [{ user_id := 0, name := "b", repo_url := "u",
                           status := BotStatus.pending }] ∧
    (requestDeployment fixDb50 0 "b" "u").2.coin_transactions
      = fixDb50.coin_transactions :=
  C4_deploy_no_ledger_event fixDb50 0 "b" "u" fixUser50 (by decide) (by decide)

/-- Claim C5: for every account with balance strictly below 50,
requestDeployment fails with the insufficient-coins error and leaves the
whole store unchanged: the balance is untouched and no Bot row is created. -/
theorem C5_insufficient_balance (db : DB) (uid : Nat) (n r : String) (a : User)
    (hfind : db.users.find? (fun u => u.uid = uid) = some a)
    (hc : a.coins < 50) :
    requestDeployment db uid n r = (.error .insufficientCoins, db) :=
  requestDeployment_poor db uid n r a hfind hc

/-- Witness for C5 at the concrete 40-coin store. -/
theorem C5_insufficient_balance_witness :
    requestDeployment fixDb40 0 "b" "u" = (.error .insufficientCoins, fixDb40) :=
  C5_insufficient_balance fixDb40 0 "b" "u" fixUser40 (by decide) (by decide)

theorem coins_add_if_nonneg (i : Nat) (d : Int) (hd : 0 ≤ d) (w : User)
    (hw : 0 ≤ w.coins) :
    0 ≤ ((if w.uid = i then { w with coins := w.coins + d } else w) : User).coins := by
  by_cases hp : w.uid = i
  · simp [hp]
    omega
  · simp [hp]
    exact hw

/-- Claim C6: with distinct primary keys on the users rows (guaranteed by the
schema), every operation - registration with or without a referral, a daily
claim, a deployment request and an email verification - preserves the
non-negativity of every account balance, on success and on failure alike. -/
theorem C6_coins_nonneg (db : DB) (op : Op)
    (hnd : (db.users.map (fun u => u.uid)).Nodup)
    (h0 : ∀ u ∈ db.users, 0 ≤ u.coins) :
    ∀ u ∈ (step db op).users, 0 ≤ u.coins := by
  cases op with
  | register un em pw rc sf vt mo =>
    show ∀ u ∈ (register db un em pw rc sf vt mo).2.users, 0 ≤ u.coins
    by_cases hany : db.users.any (fun u => u.email = em ∨ u.username = un) = true
    · rw [register_dup db un em pw rc sf vt mo hany]
      exact h0
    · have hany' : db.users.any (fun u => u.email = em ∨ u.username = un) = false :=
        Bool.not_eq_true _ ▸ hany
      have hbase : ∀ rid, ∀ u ∈ db.users ++ [regRow db un em pw rid sf vt], 0 ≤ u.coins := by
        intro rid u hu
        rcases List.mem_append.1 hu with hu | hu
        · exact h0 u hu
        · rw [List.mem_singleton] at hu
          subst hu
          cases rid <;> simp [regRow]
      cases hres : resolveReferrer db rc with
      | none =>
        rw [register_noref_snd db un em pw rc sf vt mo hany' hres]
        exact hbase none
      | some r =>
        rw [register_ref_snd db un em pw rc sf vt mo r hany' hres]
        intro u hu
        simp only [List.mem_map] at hu
        obtain ⟨v2, ⟨v1, ⟨v0, hv0, rfl⟩, rfl⟩, rfl⟩ := hu
        exact coins_add_if_nonneg r 100 (by norm_num) _
          (coins_add_if_nonneg db.nextId 50 (by norm_num) _
            (coins_add_if_nonneg r 100 (by norm_num) _ (hbase (some r) v0 hv0)))
  | claimDaily uid d =>
    show ∀ u ∈ (claimDaily db uid d).2.users, 0 ≤ u.coins
    cases hfind : db.users.find? (fun u => u.uid = uid) with
    | none =>
      rw [claimDaily_missing db uid d hfind]
      exact h0
    | some a =>
      by_cases hl : a.last_coin_claim = some d
      · rw [claimDaily_already db uid d a hfind hl]
        exact h0
      · rw [claimDaily_success db uid d a hfind hl]
        intro u hu
        simp only [List.mem_map] at hu
        obtain ⟨v, hv, rfl⟩ := hu
        by_cases hp : v.uid = uid
        · have := h0 v hv
          simp [hp]
          omega
        · simp [hp]
          exact h0 v hv
  | requestDeployment uid n r =>
    show ∀ u ∈ (requestDeployment db uid n r).2.users, 0 ≤ u.coins
    cases hfind : db.users.find? (fun u => u.uid = uid) with
    | none =>
      rw [requestDeployment_missing db uid n r hfind]
      exact h0
    | some a =>
      by_cases hc : a.coins < 50
      · rw [requestDeployment_poor db uid n r a hfind hc]
        exact h0
      · rw [requestDeployment_success db uid n r a hfind hc]
        intro u hu
        simp only [List.mem_map] at hu
        obtain ⟨v, hv, rfl⟩ := hu
        by_cases hp : v.uid = uid
        · have hva : v = a := eq_of_find_of_nodup db.users uid a v hnd hfind hv hp
          subst hva
          simp [hp]
          omega
        · simp [hp]
          exact h0 v hv
  | verifyEmail t =>
    show ∀ u ∈ (verifyEmail db t).2.users, 0 ≤ u.coins
    have hdb2 : (verifyEmail db t).2
        = { db with users := db.users.map (fun u =>
              if u.verification_token = some t then { u with is_verified := true } else u) } := by
      by_cases hf : db.users.filter (fun u => u.verification_token = some t) = []
      · rw [verifyEmail_invalid db t hf]
      · rw [verifyEmail_valid db t hf]
    rw [hdb2]
    intro u hu
    simp only [List.mem_map] at hu
    obtain ⟨v, hv, rfl⟩ := hu
    by_cases hp : v.verification_token = some t
    · simp [hp]
      exact h0 v hv
    · simp [hp]
      exact h0 v hv

/-- Witness for C6: the claim-daily step on the concrete 40-coin store keeps
the updated row non-negative. -/
theorem C6_coins_nonneg_witness :
    0 ≤ ({ fixUser40 with coins := 50, last_coin_claim := some 3 } : User).coins :=
  C6_coins_nonneg fixDb40 (Op.claimDaily 0 3) (by decide) (by decide)
    { fixUser40 with coins := 50, last_coin_claim := some 3 } (by decide)

/-- Claim C7 (counterexample): the verification token is not consumed: after
one successful verifyEmail call with token tokV, a second call with the very
same token succeeds again instead of failing with InvalidToken. -/
theorem C7_counterexample :
    (verifyEmail fixDbTok "tokV").1 = .ok () ∧
    (verifyEmail (verifyEmail fixDbTok "tokV").2 "tokV").1 = .ok () := by
  decide

/-- Claim C7 (amended): verifyEmail fails with InvalidToken exactly when no
account stores the token; a successful call marks every matching account
verified but leaves verification_token in place, so a second call with the
same token succeeds again - the token is reusable, never consumed. -/
theorem C7_verify_email_reusable (db : DB) (tok : String) :
    ((verifyEmail db tok).1 = .error .invalidToken ↔
      ∀ u ∈ db.users, ¬ u.verification_token = some tok) ∧
    ((verifyEmail db tok).1 = .ok () →
      (verifyEmail (verifyEmail db tok).2 tok).1 = .ok ()) := by
  constructor
  · constructor
    · intro he u hu hut
      by_cases hf : db.users.filter (fun u => u.verification_token = some tok) = []
      · exact (List.filter_eq_nil_iff.mp hf u hu) (by simpa using hut)
      · rw [verifyEmail_valid db tok hf] at he
        exact absurd he (by simp)
    · intro hall
      have hf : db.users.filter (fun u => u.verification_token = some tok) = [] := by
        rw [List.filter_eq_nil_iff]
        intro u hu
        simpa using hall u hu
      rw [verifyEmail_invalid db tok hf]
  · intro hok
    by_cases hf : db.users.filter (fun u => u.verification_token = some tok) = []
    · rw [verifyEmail_invalid db tok hf] at hok
      exact absurd hok (by simp)
    · have hex : ∃ u ∈ db.users, u.verification_token = some tok := by
        by_contra hc
        push_neg at hc
        refine hf ?_
        rw [List.filter_eq_nil_iff]
        intro u hu
        simpa using hc u hu
      obtain ⟨u0, hu0, hu0t⟩ := hex
      rw [verifyEmail_valid db tok hf]
      have hf2 : ¬ ({ db with users := db.users.map (fun u =>
          if u.verification_token = some tok then { u with is_verified := true }
          else u) } : DB).users.filter (fun u => u.verification_token = some tok) = [] := by
        intro hnil
        rw [List.filter_eq_nil_iff] at hnil
        have hmem := List.mem_map_of_mem (fun u =>
          if u.verification_token = some tok then { u with is_verified := true } else u) hu0
        have hcontra := hnil _ hmem
        apply hcontra
        simp [hu0t]
      rw [verifyEmail_valid _ tok hf2]

/-- Witness for the amended C7 at the concrete token store. -/
theorem C7_verify_email_reusable_witness :
    (verifyEmail (verifyEmail fixDbTok "tokV").2 "tokV").1 = .ok () :=
  (C7_verify_email_reusable fixDbTok "tokV").2 (by decide)

/-- Claim C9: login with an unknown email fails with the invalid-credentials
error, and login against an existing unverified account fails with the
not-verified error for every supplied password, right or wrong: the
verification gate runs before the password comparison. -/
theorem C9_login_order (db : DB) (em pw : String) :
    (db.users.find? (fun u => u.email = em) = none →
      login db em pw = .error .invalidCredentials) ∧
    (∀ a, db.users.find? (fun u => u.email = em) = some a → a.is_verified = false →
      login db em pw = .error .notVerified) := by
  constructor
  · intro hf
    unfold login
    rw [hf]
  · intro a hf hv
    unfold login
    rw [hf]
    simp [hv]

/-- Witness for C9: the unverified account rejects even its own correct
password with the not-verified error. -/
theorem C9_login_order_witness :
    login fixDbTok "evan@x.com" "pw" = .error .notVerified :=
  (C9_login_order fixDbTok "evan@x.com" "pw").2 fixUserTok (by decide) (by decide)

/-! The conditional coin credit touches no field besides coins. -/

theorem uid_coinAdd (i : Nat) (d : Int) (w : User) :
    ((if w.uid = i then { w with coins := w.coins + d } else w) : User).uid = w.uid := by
  by_cases hp : w.uid = i <;> simp [hp]

theorem username_coinAdd (i : Nat) (d : Int) (w : User) :
    ((if w.uid = i then { w with coins := w.coins + d } else w) : User).username
      = w.username := by
  by_cases hp : w.uid = i <;> simp [hp]

theorem email_coinAdd (i : Nat) (d : Int) (w : User) :
    ((if w.uid = i then { w with coins := w.coins + d } else w) : User).email = w.email := by
  by_cases hp : w.uid = i <;> simp [hp]

theorem verified_coinAdd (i : Nat) (d : Int) (w : User) :
    ((if w.uid = i then { w with coins := w.coins + d } else w) : User).is_verified
      = w.is_verified := by
  by_cases hp : w.uid = i <;> simp [hp]

theorem token_coinAdd (i : Nat) (d : Int) (w : User) :
    ((if w.uid = i then { w with coins := w.coins + d } else w) : User).verification_token
      = w.verification_token := by
  by_cases hp : w.uid = i <;> simp [hp]

theorem last_coinAdd (i : Nat) (d : Int) (w : User) :
    ((if w.uid = i then { w with coins := w.coins + d } else w) : User).last_coin_claim
      = w.last_coin_claim := by
  by_cases hp : w.uid = i <;> simp [hp]

/-- The new users row as it stands after the three coin updates that a
referral registration performs. -/
def refRegRow (db : DB) (un em pw : String) (r : Nat) (sf vt : String) : User :=
  (fun u => if u.uid = r then { u with coins := u.coins + 100 } else u)
    ((fun u => if u.uid = db.nextId then { u with coins := u.coins + 50 } else u)
      ((fun u => if u.uid = r then { u with coins := u.coins + 100 } else u)
        (regRow db un em pw (some r) sf vt)))

/-- After a registration that passed the identity checks, the new account row
is found both by its id (the fresh key) and by its email, and it is
unverified with the issued token stored and no claim date. -/
theorem register_new_row (db : DB) (un em pw : String) (rc : Option String)
    (sf vt : String) (mo : Bool)
    (hany : db.users.any (fun u => u.email = em ∨ u.username = un) = false)
    (hb : ∀ u ∈ db.users, ¬ u.uid = db.nextId) :
    ∃ w, (register db un em pw rc sf vt mo).2.users.find? (fun v => v.uid = db.nextId)
        = some w ∧
      (register db un em pw rc sf vt mo).2.users.find? (fun v => v.email = em) = some w ∧
      w.uid = db.nextId ∧ w.username = un ∧ w.email = em ∧ w.is_verified = false ∧
      w.verification_token = some vt ∧ w.last_coin_claim = none := by
  have hno : ∀ u ∈ db.users, ¬ (u.email = em ∨ u.username = un) := by
    intro u hu
    have h1 := hany
    rw [List.any_eq_false] at h1
    simpa using h1 u hu
  have holu : ∀ u ∈ db.users, (fun v => decide (v.uid = db.nextId)) u = false := by
    intro u hu
    simpa using hb u hu
  have hole : ∀ u ∈ db.users, (fun v => decide (v.email = em)) u = false := by
    intro u hu
    simp only [decide_eq_false_iff_not]
    exact fun he => hno u hu (Or.inl he)
  cases hres : resolveReferrer db rc with
  | none =>
    rw [register_noref_snd db un em pw rc sf vt mo hany hres]
    refine ⟨regRow db un em pw none sf vt, ?_, ?_, by simp [regRow], by simp [regRow],
      by simp [regRow], by simp [regRow], by simp [regRow], by simp [regRow]⟩
    · rw [find?_append_right _ _ _ holu, List.find?_cons_of_pos _ (by simp [regRow])]
    · rw [find?_append_right _ _ _ hole, List.find?_cons_of_pos _ (by simp [regRow])]
  | some r =>
    rw [register_ref_snd db un em pw rc sf vt mo r hany hres]
    refine ⟨refRegRow db un em pw r sf vt, ?_, ?_, ?_, ?_, ?_, ?_, ?_, ?_⟩
    · rw [find?_map_users _ _ _ (fun u => by by_cases hp : u.uid = r <;> simp [hp]),
        find?_map_users _ _ _ (fun u => by by_cases hp : u.uid = db.nextId <;> simp [hp]),
        find?_map_users _ _ _ (fun u => by by_cases hp : u.uid = r <;> simp [hp]),
        find?_append_right _ _ _ holu, List.find?_cons_of_pos _ (by simp [regRow])]
      rfl
    · rw [find?_map_users _ _ _ (fun u => by by_cases hp : u.uid = r <;> simp [hp]),
        find?_map_users _ _ _ (fun u => by by_cases hp : u.uid = db.nextId <;> simp [hp]),
        find?_map_users _ _ _ (fun u => by by_cases hp : u.uid = r <;> simp [hp]),
        find?_append_right _ _ _ hole, List.find?_cons_of_pos _ (by simp [regRow])]
      rfl
    · by_cases hA : db.nextId = r <;> simp [refRegRow, regRow, hA]
    · by_cases hA : db.nextId = r <;> simp [refRegRow, regRow, hA]
    · by_cases hA : db.nextId = r <;> simp [refRegRow, regRow, hA]
    · by_cases hA : db.nextId = r <;> simp [refRegRow, regRow, hA]
    · by_cases hA : db.nextId = r <;> simp [refRegRow, regRow, hA]
    · by_cases hA : db.nextId = r <;> simp [refRegRow, regRow, hA]

/-- The success response of a registration that passed the identity checks:
a token naming the fresh user id, and the user object as returned by the
INSERT (coins 50 with a resolved referrer, 0 otherwise). -/
theorem register_fst_ok (db : DB) (un em pw : String) (rc : Option String)
    (sf vt : String)
    (hany : db.users.any (fun u => u.email = em ∨ u.username = un) = false) :
    (register db un em pw rc sf vt true).1
      = .ok { token := { userId := db.nextId, email := em }, id := db.nextId,
              username := un, email := em,
              coins := if (resolveReferrer db rc).isSome then 50 else 0 } := by
  cases hres : resolveReferrer db rc with
  | none =>
    rw [register_noref db un em pw rc sf vt true hany hres]
    simp [hres]
  | some r =>
    rw [register_ref db un em pw rc sf vt true r hany hres]
    simp [hres]

/-- Claim C8 (amended): when the identity checks pass, the stored state after
registration is identical whether or not the mail send succeeds - the account
row is created and kept in both cases, with no rollback - but the caller
receives the success response only when the mail send succeeds: a mail
failure surfaces as the registration-failed error. -/
theorem C8_mail_failure (db : DB) (un em pw : String) (rc : Option String)
    (sf vt : String) (mo : Bool)
    (hno : ∀ u ∈ db.users, ¬ (u.email = em ∨ u.username = un)) :
    (register db un em pw rc sf vt mo).2 = (register db un em pw rc sf vt true).2 ∧
    (∃ u ∈ (register db un em pw rc sf vt mo).2.users, u.username = un ∧ u.email = em) ∧
    ((register db un em pw rc sf vt mo).1 = .error .registrationFailed ↔ mo = false) := by
  have hany : db.users.any (fun u => u.email = em ∨ u.username = un) = false := by
    rw [List.any_eq_false]
    intro u hu
    simpa using hno u hu
  refine ⟨register_snd_mail db un em pw rc sf vt mo, ?_, ?_⟩
  · cases hres : resolveReferrer db rc with
    | none =>
      rw [register_noref_snd db un em pw rc sf vt mo hany hres]
      exact ⟨regRow db un em pw none sf vt, by simp, by simp [regRow], by simp [regRow]⟩
    | some r =>
      rw [register_ref_snd db un em pw rc sf vt mo r hany hres]
      refine ⟨_, List.mem_map_of_mem _ (List.mem_map_of_mem _ (List.mem_map_of_mem _
        (List.mem_append_right _ (List.mem_singleton_self _)))), ?_⟩
      constructor
      · by_cases hA : db.nextId = r <;> simp [regRow, hA]
      · by_cases hA : db.nextId = r <;> simp [regRow, hA]
  · cases hres : resolveReferrer db rc with
    | none =>
      rw [register_noref db un em pw rc sf vt mo hany hres]
      cases mo <;> simp
    | some r =>
      rw [register_ref db un em pw rc sf vt mo r hany hres]
      cases mo <;> simp

/-- Counterexample recorded for C8: a failing mail send yields the
registration-failed response even though the account was created and kept. -/
theorem C8_counterexample :
    (register init "carol" "carol@x.com" "pw" none "1Z" "tokC" false).1
      = .error .registrationFailed ∧
    (register init "carol" "carol@x.com" "pw" none "1Z" "tokC" false).2.users.map
      (fun u => u.username) = ["carol"] := by
  decide

/-- Witness for the amended C8 on the empty store with a failing mail send. -/
theorem C8_mail_failure_witness :
    (register init "carol" "carol@x.com" "pw" none "1Z" "tokC" false).2
      = (register init "carol" "carol@x.com" "pw" none "1Z" "tokC" true).2 ∧
    (∃ u ∈ (register init "carol" "carol@x.com" "pw" none "1Z" "tokC" false).2.users,
      u.username = "carol" ∧ u.email = "carol@x.com") ∧
    ((register init "carol" "carol@x.com" "pw" none "1Z" "tokC" false).1
      = .error .registrationFailed ↔ false = false) :=
  C8_mail_failure init "carol" "carol@x.com" "pw" none "1Z" "tokC" false (by decide)

/-- Claim C10: a successful registration returns a session token naming the
new account, although that account is unverified: with that identity the
daily claim succeeds and a deployment request reaches the balance gate
(pending bot or insufficient coins, never a verification rejection), while
login with the same email and the correct password fails with NotVerified. -/
theorem C10_register_session (db : DB) (un em pw : String) (rc : Option String)
    (sf vt : String) (rr : RegOk) (db1 : DB) (d : Nat)
    (hb : ∀ u ∈ db.users, ¬ u.uid = db.nextId)
    (hreg : register db un em pw rc sf vt true = (.ok rr, db1)) :
    rr.token.userId = db.nextId ∧
    (∃ w, db1.users.find? (fun v => v.uid = rr.token.userId) = some w ∧
      w.is_verified = false) ∧
    login db1 em pw = .error .notVerified ∧
    (∃ b, (claimDaily db1 rr.token.userId d).1 = .ok b) ∧
    (∀ n rp, (requestDeployment db1 rr.token.userId n rp).1
        = .ok { user_id := rr.token.userId, name := n, repo_url := rp,
                status := BotStatus.pending } ∨
      (requestDeployment db1 rr.token.userId n rp).1 = .error .insufficientCoins) := by
  by_cases hany : db.users.any (fun u => u.email = em ∨ u.username = un) = true
  · rw [register_dup db un em pw rc sf vt true hany] at hreg
    exact absurd (congrArg Prod.fst hreg) (by simp)
  · have hany' : db.users.any (fun u => u.email = em ∨ u.username = un) = false :=
      Bool.not_eq_true _ ▸ hany
    have hfst := register_fst_ok db un em pw rc sf vt hany'
    rw [hreg] at hfst
    have htok : rr.token.userId = db.nextId :=
      congrArg (fun e : Except RegError RegOk =>
        match e with | .ok x => x.token.userId | .error _ => 0) hfst
    have hsnd := congrArg Prod.snd hreg
    obtain ⟨w, hwfu, hwfe, hwid, hwun, hwem, hwver, hwtok, hwlast⟩ :=
      register_new_row db un em pw rc sf vt true hany' hb
    rw [hsnd] at hwfu hwfe
    refine ⟨htok, ⟨w, by rw [htok]; exact hwfu, hwver⟩, ?_, ?_, ?_⟩
    · unfold login
      rw [hwfe]
      simp [hwver]
    · rw [htok]
      have hl : ¬ w.last_coin_claim = some d := by rw [hwlast]; simp
      exact ⟨w.coins + 10, by rw [claimDaily_success db1 db.nextId d w hwfu hl]⟩
    · intro n rp
      rw [htok]
      by_cases hc : w.coins < 50
      · right
        rw [requestDeployment_poor db1 db.nextId n rp w hwfu hc]
      · left
        rw [requestDeployment_success db1 db.nextId n rp w hwfu hc]

/-- Witness for C10 on the empty store. -/
theorem C10_register_session_witness :
    ({ token := { userId := 0, email := "carol@x.com" }, id := 0, username := "carol",
       email := "carol@x.com", coins := 0 } : RegOk).token.userId = init.nextId ∧
    (∃ w, (register init "carol" "carol@x.com" "pw" none "1Z" "tokC" true).2.users.find?
        (fun v => v.uid = 0) = some w ∧ w.is_verified = false) ∧
    login (register init "carol" "carol@x.com" "pw" none "1Z" "tokC" true).2
      "carol@x.com" "pw" = .error .notVerified ∧
    (∃ b, (claimDaily (register init "carol" "carol@x.com" "pw" none "1Z" "tokC" true).2
        0 1).1 = .ok b) ∧
    (∀ n rp, (requestDeployment
        (register init "carol" "carol@x.com" "pw" none "1Z" "tokC" true).2 0 n rp).1
        = .ok { user_id := 0, name := n, repo_url := rp, status := BotStatus.pending } ∨
      (requestDeployment
        (register init "carol" "carol@x.com" "pw" none "1Z" "tokC" true).2 0 n rp).1
        = .error .insufficientCoins) :=
  C10_register_session init "carol" "carol@x.com" "pw" none "1Z" "tokC"
    { token := { userId := 0, email := "carol@x.com" }, id := 0, username := "carol",
      email := "carol@x.com", coins := 0 }
    (register init "carol" "carol@x.com" "pw" none "1Z" "tokC" true).2 1
    (by decide) (by decide)

end Draghost
